import Mathlib

/-!
Verification development for the indigo relay commit-validation pipeline and
its P-256 signature checking code.

The Go sources are shallowly embedded: pure functions become Lean functions,
external collaborators (CID/TID parsing, CAR loading, the MST, the identity
directory, ECDSA primitives) become oracle fields of explicit environment
structures, and fallible Go calls become `Except` values.  Machine integers
and times are modelled as `Int`/`Nat` (Go `time.Time` instants and
`time.Duration` values are both nanosecond counts here, so `t.Add(d)` is
`t + d` and `After`/`Before` are `<`).
-/

/-- Content identifiers (CIDs) are treated as opaque values with decidable
equality; the validator only ever compares them. -/
abbrev CID := Nat

/-- A parsed TID (`syntax.TID`): the validator uses its `Time()` (an instant,
modelled in nanoseconds) and its `String()` form. -/
structure TID where
  time : Int
  str : String
deriving DecidableEq

/-- Decoded commit object from a CAR file (`repo.Commit`): the fields the
validator reads are `DID`, `Rev` and `Data` (the MST root CID). -/
structure Commit where
  did : String
  rev : String
  data : CID
deriving DecidableEq

/-- The repo fragment loaded from a CAR (`repo.Repo`); its MST is an opaque
handle interpreted by the environment oracles.  `MST.Copy()` produces a
persistent snapshot, so copying is the identity on the handle. -/
structure RepoFragment where
  mst : Nat
deriving DecidableEq

/-- Wire-format repo operation (`comatproto.SyncSubscribeRepos_RepoOp`). -/
structure RepoOpWire where
  action : String
  path : String
  cid : Option CID
  prev : Option CID
deriving DecidableEq

/-- Internal repo operation (`repo.Operation`). -/
structure Operation where
  path : String
  prev : Option CID
  value : Option CID
deriving DecidableEq

/-- A `#commit` firehose message (`comatproto.SyncSubscribeRepos_Commit`),
restricted to the fields `VerifyCommitMessage` reads. -/
structure CommitMsg where
  repo : String
  rev : String
  seq : Int
  time : String
  tooBig : Bool
  rebase : Bool
  blocks : List Nat
  ops : List RepoOpWire
  prevData : Option CID
deriving DecidableEq

/-- A `#sync` firehose message (`comatproto.SyncSubscribeRepos_Sync`),
restricted to the fields `HandleSync` reads. -/
structure SyncMsg where
  did : String
  rev : String
  time : String
  blocks : List Nat
deriving DecidableEq

/-- An account row (`models.Account`): `HandleCommit` only reads its UID. -/
structure Account where
  uid : Nat
  did : String
deriving DecidableEq

/-- A resolved identity (`identity.Identity`): the validator only calls its
`PublicKey()` method, which can fail. -/
structure Ident where
  publicKey : Except String Nat

/-- The distinct error return points of the validator.  Each constructor
corresponds to one `return nil, err` site in the Go code (they are
distinguishable there by the metric label incremented at that site). -/
inductive VErr
  | badDID (e : String)
  | badTID (e : String)
  | revOutOfOrder (dt : Int)
  | revTooFarFuture
  | badTime (e : String)
  | badCAR (e : String)
  | revMismatch
  | didMismatch
  | sigBadDID (e : String)
  | sigLookup (e : String)
  | sigNoKey (e : String)
  | sigInvalid (e : String)
  | badOpPath (e : String)
  | recordCID (e : String)
  | opCIDMismatch
  | missingRecord (e : String)
  | parseOps (e : String)
  | normalize (e : String)
  | invert (e : String)
  | invTreeRoot (e : String)
  | prevDataMismatch
  | handleRoot (e : String)
deriving DecidableEq

/-- `const defaultMaxRevFuture = time.Hour`, in nanoseconds. -/
def defaultMaxRevFuture : Int := 3600000000000

/-- The configuration state of a `Validator`. -/
structure ValidatorCfg where
  maxRevFuture : Int
  allowSignatureNotFound : Bool
deriving DecidableEq

/-- `NewValidator`: uses the default clock-skew bound and hardcodes
`AllowSignatureNotFound: true`. -/
def NewValidator : ValidatorCfg :=
  { maxRevFuture := defaultMaxRevFuture, allowSignatureNotFound := true }

/-- Environment of external collaborators for the validator: syntax parsing,
CAR loading, repo/MST access and the identity directory.  `now` is the value
of `time.Now()` during the call. -/
structure VerifyEnv where
  parseDID : String → Except String String
  parseTID : String → Except String TID
  now : Int
  parseDatetime : String → Except String Unit
  loadRepoFromCAR : List Nat → Except String (Commit × RepoFragment)
  loadCommitFromCAR : List Nat → Except String Commit
  parseRepoPath : String → Except String (String × String)
  getRecordCID : RepoFragment → String → String → Except String CID
  getRecordBytes : RepoFragment → String → String → Except String Unit
  normalizeOps : List Operation → Except String (List Operation)
  invertOp : Nat → Operation → Except String Nat
  rootCID : Nat → Except String CID
  hasDirectory : Bool
  lookupDID : String → Except String Ident
  verifySig : Commit → Nat → Except String Unit

/-- `ParseCommitOps`: translates wire-format ops to internal operations,
enforcing the per-action invariants; the first invalid op aborts. -/
def ParseCommitOps : List RepoOpWire → Except String (List Operation)
  | [] => .ok []
  | rop :: rest =>
    match rop.action with
    | "create" =>
      if rop.cid.isNone || rop.prev.isSome then .error ("invalid repoOp: create")
      else
        match ParseCommitOps rest with
        | .error e => .error e
        | .ok out => .ok ({ path := rop.path, prev := none, value := rop.cid } :: out)
    | "delete" =>
      if rop.cid.isSome || rop.prev.isNone then .error ("invalid repoOp: delete")
      else
        match ParseCommitOps rest with
        | .error e => .error e
        | .ok out => .ok ({ path := rop.path, prev := rop.prev, value := none } :: out)
    | "update" =>
      if rop.cid.isNone || rop.prev.isNone then .error ("invalid repoOp: update")
      else
        match ParseCommitOps rest with
        | .error e => .error e
        | .ok out => .ok ({ path := rop.path, prev := rop.prev, value := rop.cid } :: out)
    | other => .error ("invalid repoOp action: " ++ other)

/-- Stated from the specification text for claim C6: the per-action invariant
a wire op must satisfy (create has a cid and no prev, delete has a prev and no
cid, update has both; any other action is invalid). -/
def specOpValid (op : RepoOpWire) : Bool :=
  match op.action with
  | "create" => op.cid.isSome && op.prev.isNone
  | "delete" => op.cid.isNone && op.prev.isSome
  | "update" => op.cid.isSome && op.prev.isSome
  | _ => false

/-- Stated from the specification text for claim C6: the expected translation
of one wire op (same path; value is the cid, nil for delete; prev is carried
over, nil for create). -/
def specWireToOp (op : RepoOpWire) : Operation :=
  match op.action with
  | "create" => { path := op.path, prev := none, value := op.cid }
  | "delete" => { path := op.path, prev := op.prev, value := none }
  | _ => { path := op.path, prev := op.prev, value := op.cid }

/-- `Validator.VerifyCommitSignature`: skip when no directory is configured;
parse the commit DID; look it up; treat any lookup error as a warning when
`AllowSignatureNotFound` is set; then extract the signing key and verify.
The returned `Bool` is the contribution to the caller's `hasWarning` flag
(the Go code writes `true` through the `hasWarning` pointer). -/
def VerifyCommitSignature (cfg : ValidatorCfg) (env : VerifyEnv) (commit : Commit) :
    Except VErr Bool :=
  if env.hasDirectory = false then .ok false
  else
    match env.parseDID commit.did with
    | .error e => .error (.sigBadDID e)
    | .ok xdid =>
      match env.lookupDID xdid with
      | .error e =>
        if cfg.allowSignatureNotFound then .ok true
        else .error (.sigLookup e)
      | .ok ident =>
        match ident.publicKey with
        | .error e => .error (.sigNoKey e)
        | .ok pk =>
          match env.verifySig commit pk with
          | .error e => .error (.sigInvalid e)
          | .ok _ => .ok false

/-- The record-consistency loop of `VerifyCommitMessage`: for each create or
update op carrying a CID, parse its repo path, require the MST value at that
path to equal the op CID, and require the record block to be present. -/
def checkRecords (env : VerifyEnv) (rf : RepoFragment) : List RepoOpWire → Except VErr Unit
  | [] => .ok ()
  | op :: rest =>
    match op.cid with
    | some c =>
      if op.action = "create" ∨ op.action = "update" then
        match env.parseRepoPath op.path with
        | .error e => .error (.badOpPath e)
        | .ok (nsid, rkey) =>
          match env.getRecordCID rf nsid rkey with
          | .error e => .error (.recordCID e)
          | .ok v =>
            if c ≠ v then .error .opCIDMismatch
            else
              match env.getRecordBytes rf nsid rkey with
              | .error e => .error (.missingRecord e)
              | .ok _ => checkRecords env rf rest
      else checkRecords env rf rest
    | none => checkRecords env rf rest

/-- The legacy-compatibility loop of `VerifyCommitMessage`: it returns success
early when some delete or update op carries no prev CID.  The Go loop returns
at the first such op; since every such return yields the same value, the loop
is equivalent to this existence test. -/
def hasLegacyOp (ops : List RepoOpWire) : Bool :=
  ops.any (fun o => (o.action == "delete" || o.action == "update") && o.prev.isNone)

/-- The inversion loop of `VerifyCommitMessage`: `repo.InvertOp` applied to
each normalized op in order, threading the tree handle. -/
def invertAll (env : VerifyEnv) : Nat → List Operation → Except VErr Nat
  | t, [] => .ok t
  | t, op :: rest =>
    match env.invertOp t op with
    | .error e => .error (.invert e)
    | .ok t2 => invertAll env t2 rest

/-- The warning update at the head of the `msg.PrevData != nil` block: a
known accumulated-state `prevData` that disagrees with `msg.PrevData` turns
the warning flag on; otherwise the flag is unchanged. -/
def prevDataWarn (prevData : Option CID) (c : CID) (hasWarning : Bool) : Bool :=
  match prevData with
  | some pd => if pd ≠ c then true else hasWarning
  | none => hasWarning

/-- The `msg.PrevData != nil` block of `VerifyCommitMessage`: a disagreement
with the accumulated-state `prevData` argument only raises the warning flag;
then the ops are parsed, normalized and inverted over a copy of the MST, and
the inverted root must equal `msg.PrevData`. -/
def prevDataCheck (env : VerifyEnv) (msg : CommitMsg) (prevData : Option CID)
    (repoFragment : RepoFragment) (hasWarning : Bool) (c : CID) :
    Except VErr (RepoFragment × Bool) :=
  match ParseCommitOps msg.ops with
  | .error e => .error (.parseOps e)
  | .ok ops =>
    match env.normalizeOps ops with
    | .error e => .error (.normalize e)
    | .ok ops2 =>
      match invertAll env repoFragment.mst ops2 with
      | .error e => .error e
      | .ok invTree =>
        match env.rootCID invTree with
        | .error e => .error (.invTreeRoot e)
        | .ok computed =>
          if computed ≠ c then .error .prevDataMismatch
          else .ok (repoFragment, prevDataWarn prevData c hasWarning)

/-- The `prevRev` monotonicity check of `VerifyCommitMessage`: when a previous
rev is known and the incoming rev time is strictly before it, fail with
`revOutOfOrderError{dt}` where `dt = prevTime - curTime`. -/
def checkPrevRev (rev : TID) : Option TID → Except VErr Unit
  | none => .ok ()
  | some pr =>
    if rev.time < pr.time then .error (.revOutOfOrder (pr.time - rev.time))
    else .ok ()

/-- `VerifyCommitMessage` after the DID/TID parsing and the two temporal
checks: datetime parse, warning flags, CAR load, rev/DID cross-checks,
signature check, record loop, legacy short-circuit and the prevData block. -/
def verifyStage2 (cfg : ValidatorCfg) (env : VerifyEnv) (msg : CommitMsg)
    (prevData : Option CID) (did : String) (rev : TID) :
    Except VErr (RepoFragment × Bool) :=
  match env.parseDatetime msg.time with
  | .error e => .error (.badTime e)
  | .ok _ =>
    match env.loadRepoFromCAR msg.blocks with
    | .error e => .error (.badCAR e)
    | .ok (commit, repoFragment) =>
      if commit.rev ≠ rev.str then .error .revMismatch
      else if commit.did ≠ did then .error .didMismatch
      else
        match VerifyCommitSignature cfg env commit with
        | .error e => .error e
        | .ok w =>
          match checkRecords env repoFragment msg.ops with
          | .error e => .error e
          | .ok _ =>
            if hasLegacyOp msg.ops then .ok (repoFragment, (msg.tooBig || msg.rebase) || w)
            else
              match msg.prevData with
              | none => .ok (repoFragment, (msg.tooBig || msg.rebase) || w)
              | some c =>
                prevDataCheck env msg prevData repoFragment ((msg.tooBig || msg.rebase) || w) c

/-- `Validator.VerifyCommitMessage`, composed from its stages in source
order.  The success value pairs the loaded repo fragment with the final value
of the local `hasWarning` flag (observable in the Go code through which
metric counter is incremented). -/
def VerifyCommitMessage (cfg : ValidatorCfg) (env : VerifyEnv) (msg : CommitMsg)
    (prevRev : Option TID) (prevData : Option CID) :
    Except VErr (RepoFragment × Bool) :=
  match env.parseDID msg.repo with
  | .error e => .error (.badDID e)
  | .ok did =>
    match env.parseTID msg.rev with
    | .error e => .error (.badTID e)
    | .ok rev =>
      match checkPrevRev rev prevRev with
      | .error e => .error e
      | .ok _ =>
        if env.now + cfg.maxRevFuture < rev.time then .error .revTooFarFuture
        else verifyStage2 cfg env msg prevData did rev

/-- User-lock events, used to record which per-UID lock operations a handler
performs and in which order. -/
inductive LockEvent
  | acquire (uid : Nat)
  | release (uid : Nat)
deriving DecidableEq

/-- `Validator.HandleCommit`: acquire the per-user lock for `account.UID`,
verify the commit message, return the MST root CID of the repo fragment, and
release the lock on every return path (the Go `defer unlock()`).  The second
component is the sequence of user-lock events the call performs. -/
def HandleCommit (cfg : ValidatorCfg) (env : VerifyEnv) (account : Account)
    (msg : CommitMsg) (prevRev : Option TID) (prevData : Option CID) :
    Except VErr CID × List LockEvent :=
  let uid := account.uid
  let res : Except VErr CID :=
    match VerifyCommitMessage cfg env msg prevRev prevData with
    | .error e => .error e
    | .ok (repoFragment, _) =>
      match env.rootCID repoFragment.mst with
      | .error e => .error (.handleRoot e)
      | .ok c => .ok c
  (res, [LockEvent.acquire uid, LockEvent.release uid])

/-- `Validator.HandleSync`: parse DID and TID, apply the future bound, parse
the datetime, load the commit from the CAR, cross-check rev and DID, verify
the signature, and return the commit data CID.  The Go function performs no
user-lock operation, so its lock-event sequence is empty. -/
def HandleSync (cfg : ValidatorCfg) (env : VerifyEnv) (msg : SyncMsg) :
    Except VErr CID × List LockEvent :=
  let res : Except VErr CID :=
    match env.parseDID msg.did with
    | .error e => .error (.badDID e)
    | .ok did =>
      match env.parseTID msg.rev with
      | .error e => .error (.badTID e)
      | .ok rev =>
        if env.now + cfg.maxRevFuture < rev.time then .error .revTooFarFuture
        else
          match env.parseDatetime msg.time with
          | .error e => .error (.badTime e)
          | .ok _ =>
            match env.loadCommitFromCAR msg.blocks with
            | .error e => .error (.badCAR e)
            | .ok commit =>
              if commit.rev ≠ rev.str then .error .revMismatch
              else if commit.did ≠ did then .error .didMismatch
              else
                match VerifyCommitSignature cfg env commit with
                | .error e => .error e
                | .ok _ => .ok commit.data
  (res, [])

/-- The validator user-lock table: `map[uint64]*userLock`, where each entry
holds its `waiters` counter.  Modelled as an association list keyed by UID. -/
abbrev LockTable := List (Nat × Nat)

/-- Lookup of a UID in the lock table (`val.userLocks[uid]`). -/
def tableGet (t : LockTable) (uid : Nat) : Option Nat :=
  match t with
  | [] => none
  | p :: rest => if p.1 = uid then some p.2 else tableGet rest uid

/-- Update the waiters counter of the entry keyed `uid` (`ulk.waiters.Add`). -/
def bumpEntry (uid : Nat) (g : Nat → Nat) (p : Nat × Nat) : Nat × Nat :=
  if p.1 = uid then (p.1, g p.2) else p

/-- The acquisition half of `Validator.lockUser`, as one atomic step (it runs
under the table mutex `lklk`): look up or insert the user lock, and increment
its waiters counter. -/
def lockUserAcquire (t : LockTable) (uid : Nat) : LockTable :=
  match tableGet t uid with
  | some _ => t.map (bumpEntry uid (fun n => n + 1))
  | none => t ++ [(uid, 1)]

/-- The release closure returned by `Validator.lockUser`, as one atomic step
(it runs under the table mutex): decrement the waiters counter and delete the
entry when it reaches zero. -/
def lockUserRelease (t : LockTable) (uid : Nat) : LockTable :=
  match tableGet t uid with
  | some n =>
    if n - 1 = 0 then t.filter (fun p => p.1 ≠ uid)
    else t.map (bumpEntry uid (fun n => n - 1))
  | none => t

/-- One lock event applied to the table. -/
def applyLockEvent (t : LockTable) : LockEvent → LockTable
  | .acquire uid => lockUserAcquire t uid
  | .release uid => lockUserRelease t uid

/-- A whole interleaved sequence of lock events applied to the table. -/
def runLockTrace (t : LockTable) (evs : List LockEvent) : LockTable :=
  evs.foldl applyLockEvent t

/-- Number of acquisitions for a given UID in an event sequence. -/
def countAcq : List LockEvent → Nat → Nat
  | [], _ => 0
  | .acquire u :: rest, v => (if u = v then 1 else 0) + countAcq rest v
  | .release _ :: rest, v => countAcq rest v

/-- Number of releases for a given UID in an event sequence. -/
def countRel : List LockEvent → Nat → Nat
  | [], _ => 0
  | .release u :: rest, v => (if u = v then 1 else 0) + countRel rest v
  | .acquire _ :: rest, v => countRel rest v

/-- The group order `n` of the NIST P-256 curve (`elliptic.P256().Params().N`). -/
def p256Order : Nat :=
  0xffffffff00000000ffffffffffffffffbce6faada7179e84f3b9cac2fc632551

/-- `big.Int.SetBytes`: interpret a byte slice as a big-endian unsigned
integer. -/
def setBytes (l : List Nat) : Nat :=
  l.foldl (fun acc b => acc * 256 + b) 0

/-- `big.Int.FillBytes` into an `n`-byte buffer: the zero-extended big-endian
byte representation (the Go method panics when the value does not fit; the
callers here pass values below the curve order, which fit in 32 bytes). -/
def fillBytesN (n : Nat) (x : Nat) : List Nat :=
  (List.range n).map (fun i => x / 256 ^ (n - 1 - i) % 256)

/-- `FillBytes(sig[:32])` / `FillBytes(sig[32:])`: a 32-byte buffer. -/
def fillBytes32 (x : Nat) : List Nat := fillBytesN 32 x

/-- Modelled from the spec: `sigSIsLowS_P256` is called by
`PublicKeyP256.HashAndVerify` but its body is not among the source files; the
spec requires rejecting any signature where `s > n/2`. -/
def sigSIsLowS_P256 (s : Nat) : Bool :=
  decide (s ≤ p256Order / 2)

/-- Modelled from the spec: `sigSToLowS_P256` is called by
`PrivateKeyP256.HashAndSign` but its body is not among the source files; the
spec requires the emitted signature to be low-S, so a high `s` is replaced by
`n - s` (the unique other `s` value valid for the same signature). -/
def sigSToLowS_P256 (s : Nat) : Nat :=
  if p256Order / 2 < s then p256Order - s else s

/-- ECDSA primitives from Go `crypto` packages, abstracted over one fixed
P-256 key pair: `sha256` hashes a byte string, `ecdsaVerify h r s` is
`ecdsa.Verify(pub, h, r, s)`, and `ecdsaSign h` is `ecdsa.Sign(rand, priv, h)`
returning `(r, s)` (or a crypto error). -/
structure CryptoEnv where
  sha256 : List Nat → List Nat
  ecdsaVerify : List Nat → Nat → Nat → Bool
  ecdsaSign : List Nat → Except String (Nat × Nat)

/-- The `ErrInvalidSignature` sentinel of the crypto package. -/
def ErrInvalidSignature : String := "crypto: invalid signature"

/-- `PublicKeyP256.HashAndVerify`: hash the content with SHA-256, require a
64-byte signature, split it into `r` and `s`, verify ECDSA over the digest,
and additionally require the low-S form. -/
def HashAndVerify (env : CryptoEnv) (content sig : List Nat) : Except String Unit :=
  if sig.length ≠ 64 then
    .error ("crypto: P-256 signatures must be 64 bytes, got len=" ++ toString sig.length)
  else
    if env.ecdsaVerify (env.sha256 content) (setBytes (sig.take 32))
        (setBytes (sig.drop 32)) = false then .error ErrInvalidSignature
    else if sigSIsLowS_P256 (setBytes (sig.drop 32)) = false then .error ErrInvalidSignature
    else .ok ()

/-- `PrivateKeyP256.HashAndSign`: hash the content with SHA-256, sign the
digest, normalize `s` to the low-S form, and serialize `r` and `s` into a
64-byte signature. -/
def HashAndSign (env : CryptoEnv) (content : List Nat) : Except String (List Nat) :=
  match env.ecdsaSign (env.sha256 content) with
  | .error e => .error ("crypto error signing with P-256 private key: " ++ e)
  | .ok (r, s) => .ok (fillBytes32 r ++ fillBytes32 (sigSToLowS_P256 s))

theorem parseCommitOps_cons (op : RepoOpWire) (rest : List RepoOpWire) (l : List Operation) :
    ParseCommitOps (op :: rest) = .ok l ↔
      specOpValid op = true ∧
        ∃ l2, ParseCommitOps rest = .ok l2 ∧ l = specWireToOp op :: l2 := by
  rcases op with ⟨act, path, cid, prev⟩
  by_cases h1 : act = "create"
  · subst h1
    cases cid <;> cases prev <;>
      cases hrest : ParseCommitOps rest <;>
        simp [ParseCommitOps, specOpValid, specWireToOp, hrest, eq_comm]
  · by_cases h2 : act = "delete"
    · subst h2
      cases cid <;> cases prev <;>
        cases hrest : ParseCommitOps rest <;>
          simp [ParseCommitOps, specOpValid, specWireToOp, hrest, eq_comm]
    · by_cases h3 : act = "update"
      · subst h3
        cases cid <;> cases prev <;>
          cases hrest : ParseCommitOps rest <;>
            simp [ParseCommitOps, specOpValid, specWireToOp, hrest, eq_comm]
      · simp [ParseCommitOps, specOpValid, h1, h2, h3]

/-- C6: `ParseCommitOps` succeeds on a list of wire ops if and only if every
op satisfies its per-action invariant (create: cid and no prev; delete: prev
and no cid; update: both; any other action string is invalid), and on success
the output preserves input order, mapping each op to an `Operation` with the
same path, value equal to the cid (none for delete) and the carried prev
(none for create); on any violation it returns an error. -/
theorem c6_parseCommitOps (ops : List RepoOpWire) :
    ((∃ l, ParseCommitOps ops = .ok l) ↔ ∀ op ∈ ops, specOpValid op = true) ∧
    (∀ l, ParseCommitOps ops = .ok l → l = ops.map specWireToOp) := by
  induction ops with
  | nil =>
    refine ⟨by simp [ParseCommitOps], ?_⟩
    intro l hl
    simp only [ParseCommitOps] at hl
    cases hl
    simp
  | cons op rest ih =>
    constructor
    · constructor
      · rintro ⟨l, hl⟩
        rw [parseCommitOps_cons] at hl
        obtain ⟨hv, l2, hl2, _⟩ := hl
        intro o ho
        rcases List.mem_cons.mp ho with rfl | hmem
        · exact hv
        · exact ih.1.mp ⟨l2, hl2⟩ o hmem
      · intro hall
        obtain ⟨l2, hl2⟩ := ih.1.mpr (fun o ho => hall o (List.mem_cons_of_mem _ ho))
        exact ⟨specWireToOp op :: l2, (parseCommitOps_cons op rest _).mpr
          ⟨hall op (List.mem_cons_self op rest), l2, hl2, rfl⟩⟩
    · intro l hl
      rw [parseCommitOps_cons] at hl
      obtain ⟨_, l2, hl2, rfl⟩ := hl
      simp [ih.2 l2 hl2]

/-- A concrete wire op used by the C6 witness. -/
def c6op : RepoOpWire :=
  { action := "create", path := "a/b", cid := some 5, prev := none }

/-- Witness for C6 at a concrete one-op list. -/
theorem c6_parseCommitOps_witness :
    (∃ l, ParseCommitOps [c6op] = .ok l) ∧
    ([({ path := "a/b", prev := none, value := some 5 } : Operation)] =
      [c6op].map specWireToOp) := by
  refine ⟨(c6_parseCommitOps [c6op]).1.mpr ?_, (c6_parseCommitOps [c6op]).2 _ ?_⟩
  · decide
  · rfl

theorem tableGet_map_bump_eq (t : LockTable) (uid : Nat) (g : Nat → Nat) :
    tableGet (t.map (bumpEntry uid g)) uid = (tableGet t uid).map g := by
  induction t with
  | nil => simp [tableGet]
  | cons p rest ih =>
    by_cases hp : p.1 = uid <;> simp [tableGet, bumpEntry, hp, ih]

theorem tableGet_map_bump_ne (t : LockTable) (uid : Nat) (g : Nat → Nat) (v : Nat)
    (hv : v ≠ uid) :
    tableGet (t.map (bumpEntry uid g)) v = tableGet t v := by
  induction t with
  | nil => simp [tableGet]
  | cons p rest ih =>
    by_cases hp : p.1 = uid
    · have huv : ¬uid = v := fun h => hv h.symm
      simp [tableGet, bumpEntry, hp, huv, ih]
    · simp only [List.map_cons, bumpEntry, if_neg hp, tableGet]
      rw [ih]

theorem tableGet_append_new (t : LockTable) (uid v : Nat) :
    tableGet (t ++ [(uid, 1)]) v =
      match tableGet t v with
      | some n => some n
      | none => if uid = v then some 1 else none := by
  induction t with
  | nil => simp [tableGet]
  | cons p rest ih => by_cases hv : p.1 = v <;> simp [tableGet, hv, ih]

theorem tableGet_filterOut (t : LockTable) (uid v : Nat) :
    tableGet (t.filter (fun p => p.1 ≠ uid)) v =
      if v = uid then none else tableGet t v := by
  induction t with
  | nil => simp [tableGet]
  | cons p rest ih =>
    by_cases hp : p.1 = uid <;> by_cases hv : p.1 = v <;>
      simp_all [tableGet, List.filter_cons]

theorem tableGet_lockUserAcquire (t : LockTable) (uid v : Nat) :
    tableGet (lockUserAcquire t uid) v =
      if v = uid then
        match tableGet t uid with
        | some d => some (d + 1)
        | none => some 1
      else tableGet t v := by
  cases hu : tableGet t uid with
  | some d =>
    have hstep : lockUserAcquire t uid = t.map (bumpEntry uid (fun n => n + 1)) := by
      simp [lockUserAcquire, hu]
    rw [hstep]
    by_cases hv : v = uid
    · subst hv
      rw [tableGet_map_bump_eq, hu]
      simp
    · rw [tableGet_map_bump_ne _ _ _ _ hv, if_neg hv]
  | none =>
    have hstep : lockUserAcquire t uid = t ++ [(uid, 1)] := by
      simp [lockUserAcquire, hu]
    rw [hstep, tableGet_append_new]
    by_cases hv : v = uid
    · subst hv
      simp [hu]
    · have huv : ¬uid = v := fun h => hv h.symm
      cases htv : tableGet t v <;> simp [htv, hv, huv]

theorem tableGet_lockUserRelease (t : LockTable) (uid v : Nat) (d : Nat)
    (hu : tableGet t uid = some d) :
    tableGet (lockUserRelease t uid) v =
      if v = uid then (if d - 1 = 0 then none else some (d - 1))
      else tableGet t v := by
  by_cases hd : d - 1 = 0
  · have hstep : lockUserRelease t uid = t.filter (fun p => p.1 ≠ uid) := by
      simp [lockUserRelease, hu, hd]
    rw [hstep, tableGet_filterOut]
    by_cases hv : v = uid <;> simp [hv, hd]
  · have hstep : lockUserRelease t uid = t.map (bumpEntry uid (fun n => n - 1)) := by
      simp [lockUserRelease, hu, hd]
    rw [hstep]
    by_cases hv : v = uid
    · subst hv
      rw [tableGet_map_bump_eq, hu]
      simp [hd]
    · rw [tableGet_map_bump_ne _ _ _ _ hv, if_neg hv]

theorem runLockTrace_tableGet (evs : List LockEvent) :
    ∀ (t : LockTable) (a r : Nat → Nat),
      (∀ v, r v ≤ a v) →
      (∀ v, tableGet t v = if a v = r v then none else some (a v - r v)) →
      (∀ n v, countRel (evs.take n) v + r v ≤ countAcq (evs.take n) v + a v) →
      ∀ v, tableGet (runLockTrace t evs) v =
        if a v + countAcq evs v = r v + countRel evs v then none
        else some ((a v + countAcq evs v) - (r v + countRel evs v)) := by
  induction evs with
  | nil =>
    intro t a r hle ht _ v
    have h := ht v
    simp only [runLockTrace, List.foldl_nil, countAcq, countRel, Nat.add_zero]
    exact h
  | cons e rest ih =>
    intro t a r hle ht hwf v
    cases e with
    | acquire uid =>
      have hrun : runLockTrace t (LockEvent.acquire uid :: rest) =
          runLockTrace (lockUserAcquire t uid) rest := rfl
      rw [hrun]
      have hle2 : ∀ w, r w ≤ a w + (if uid = w then 1 else 0) := by
        intro w
        have := hle w
        by_cases h : uid = w <;> simp [h] <;> omega
      have ht2 : ∀ w, tableGet (lockUserAcquire t uid) w =
          if a w + (if uid = w then 1 else 0) = r w then none
          else some (a w + (if uid = w then 1 else 0) - r w) := by
        intro w
        rw [tableGet_lockUserAcquire]
        by_cases hw : w = uid
        · subst hw
          rw [if_pos rfl, ht w, if_pos rfl]
          have hlew := hle w
          by_cases heq : a w = r w
          · simp only [if_pos heq]
            rw [if_neg (by omega)]
            have h1 : a w + 1 - r w = 1 := by omega
            rw [h1]
          · simp only [if_neg heq]
            rw [if_neg (by omega)]
            have h1 : a w + 1 - r w = a w - r w + 1 := by omega
            rw [h1]
        · have huw : ¬uid = w := fun h => hw h.symm
          rw [if_neg hw, ht w, if_neg huw]
          simp only [Nat.add_zero]
      have hwf2 : ∀ n w, countRel (rest.take n) w + r w ≤
          countAcq (rest.take n) w + (a w + (if uid = w then 1 else 0)) := by
        intro n w
        have h := hwf (n + 1) w
        simp only [List.take_succ_cons, countAcq, countRel] at h
        by_cases hu : uid = w <;> simp [hu] at h ⊢ <;> omega
      have key := ih (lockUserAcquire t uid)
        (fun w => a w + (if uid = w then 1 else 0)) r hle2 ht2 hwf2 v
      rw [key]
      simp only [countAcq, countRel]
      by_cases h : uid = v
      · simp only [if_pos h]
        exact if_congr (by omega) rfl (by congr 1; omega)
      · simp only [if_neg h]
        exact if_congr (by omega) rfl (by congr 1; omega)
    | release uid =>
      have hrun : runLockTrace t (LockEvent.release uid :: rest) =
          runLockTrace (lockUserRelease t uid) rest := rfl
      rw [hrun]
      have hlt : r uid < a uid := by
        have h := hwf 1 uid
        simp [countAcq, countRel] at h
        omega
      have hget : tableGet t uid = some (a uid - r uid) := by
        rw [ht uid, if_neg (by omega)]
      have hle2 : ∀ w, r w + (if uid = w then 1 else 0) ≤ a w := by
        intro w
        have := hle w
        by_cases h : uid = w
        · subst h
          rw [if_pos rfl]
          omega
        · rw [if_neg h]
          omega
      have ht2 : ∀ w, tableGet (lockUserRelease t uid) w =
          if a w = r w + (if uid = w then 1 else 0) then none
          else some (a w - (r w + (if uid = w then 1 else 0))) := by
        intro w
        rw [tableGet_lockUserRelease t uid w (a uid - r uid) hget]
        by_cases hw : w = uid
        · subst hw
          rw [if_pos rfl, if_pos rfl]
          by_cases hone : a w - r w - 1 = 0
          · rw [if_pos hone, if_pos (by omega)]
          · rw [if_neg hone, if_neg (by omega)]
            have h1 : a w - r w - 1 = a w - (r w + 1) := by omega
            rw [h1]
        · have huw : ¬uid = w := fun h => hw h.symm
          rw [if_neg hw, ht w, if_neg huw]
          simp only [Nat.add_zero]
      have hwf2 : ∀ n w, countRel (rest.take n) w + (r w + (if uid = w then 1 else 0)) ≤
          countAcq (rest.take n) w + a w := by
        intro n w
        have h := hwf (n + 1) w
        simp only [List.take_succ_cons, countAcq, countRel] at h
        by_cases hu : uid = w <;> simp [hu] at h ⊢ <;> omega
      have key := ih (lockUserRelease t uid) a
        (fun w => r w + (if uid = w then 1 else 0)) hle2 ht2 hwf2 v
      rw [key]
      simp only [countAcq, countRel]
      by_cases h : uid = v
      · simp only [if_pos h]
        exact if_congr (by omega) rfl (by congr 1; omega)
      · simp only [if_neg h]
        exact if_congr (by omega) rfl (by congr 1; omega)

/-- C7: the user-lock table stays clean.  For any interleaved sequence of
`lockUser` acquisitions and release-closure calls that is well formed (no
prefix releases a UID more often than it was acquired — guaranteed by program
order, since each release closure runs after its acquisition returned) and
balanced (every acquisition is matched by its release, as after any set of
completed `HandleCommit` calls), running it from the empty table leaves the
`userLocks` table empty; in particular each UID's entry is gone once its
waiters count returns to zero. -/
theorem lockTable_empty_of_balanced (evs : List LockEvent)
    (hwf : ∀ n v, countRel (evs.take n) v ≤ countAcq (evs.take n) v)
    (hbal : ∀ v, countAcq evs v = countRel evs v) :
    runLockTrace [] evs = [] := by
  have h := runLockTrace_tableGet evs [] (fun _ => 0) (fun _ => 0)
    (fun _ => Nat.le_refl 0) (fun v => by simp [tableGet]) (fun n v => by simpa using hwf n v)
  have hnone : ∀ v, tableGet (runLockTrace [] evs) v = none := by
    intro v
    rw [h v]
    simp [hbal v]
  cases hres : runLockTrace [] evs with
  | nil => rfl
  | cons p rest =>
    have hp := hnone p.1
    rw [hres] at hp
    simp [tableGet] at hp

/-- Witness for C7: two contending acquisitions for UID 1 followed by their
two releases empty the table. -/
theorem lockTable_empty_of_balanced_witness :
    runLockTrace []
      [LockEvent.acquire 1, LockEvent.acquire 1, LockEvent.release 1, LockEvent.release 1] = [] := by
  apply lockTable_empty_of_balanced
  · intro n v
    match n with
    | 0 => simp [countAcq, countRel]
    | 1 => by_cases h : (1 : Nat) = v <;> simp [countAcq, countRel, h]
    | 2 => by_cases h : (1 : Nat) = v <;> simp [countAcq, countRel, h]
    | 3 => by_cases h : (1 : Nat) = v <;> simp [countAcq, countRel, h]
    | n + 4 => by_cases h : (1 : Nat) = v <;> simp [countAcq, countRel, h]
  · intro v
    by_cases h : (1 : Nat) = v <;> simp [countAcq, countRel, h]

/-- A trivial concrete environment in which every oracle succeeds except the
directory lookup; used to evaluate the handlers at concrete inputs. -/
def trivEnv : VerifyEnv :=
  { parseDID := fun s => .ok s
    parseTID := fun _ => .ok { time := 0, str := "rev1" }
    now := 0
    parseDatetime := fun _ => .ok ()
    loadRepoFromCAR := fun _ => .ok ({ did := "did:x", rev := "rev1", data := 7 }, { mst := 0 })
    loadCommitFromCAR := fun _ => .ok { did := "did:x", rev := "rev1", data := 7 }
    parseRepoPath := fun _ => .ok ("a", "b")
    getRecordCID := fun _ _ _ => .ok 7
    getRecordBytes := fun _ _ _ => .ok ()
    normalizeOps := fun ops => .ok ops
    invertOp := fun t _ => .ok t
    rootCID := fun _ => .ok 9
    hasDirectory := false
    lookupDID := fun _ => .error ("identity not found")
    verifySig := fun _ _ => .ok () }

/-- A concrete `#sync` message for counterexamples and witnesses. -/
def trivSyncMsg : SyncMsg :=
  { did := "did:x", rev := "rev1", time := "t", blocks := [] }

/-- C8 counterexample: the claim says every `HandleSync` call acquires the
per-account user lock at entry, but a concrete `HandleSync` call performs no
lock acquisition at all (its lock-event trace is empty): the Go function
never calls `lockUser`. -/
theorem c8_handleSync_no_lock_counterexample :
    ¬ ∃ uid, LockEvent.acquire uid ∈ (HandleSync NewValidator trivEnv trivSyncMsg).2 := by
  rintro ⟨uid, h⟩
  simp [HandleSync] at h

/-- C8 (amended): every `HandleCommit` call acquires the per-account user
lock for the account UID at entry and releases it exactly at return, holding
it for the whole call; `HandleSync`, by contrast, performs no user-lock
operation, so only `HandleCommit` calls are serialized per UID. -/
theorem c8_lock_traces (cfg : ValidatorCfg) (env : VerifyEnv) (account : Account)
    (msg : CommitMsg) (prevRev : Option TID) (prevData : Option CID) (smsg : SyncMsg) :
    (HandleCommit cfg env account msg prevRev prevData).2 =
      [LockEvent.acquire account.uid, LockEvent.release account.uid] ∧
    (HandleSync cfg env smsg).2 = [] :=
  ⟨rfl, rfl⟩

/-- C10: with `AllowSignatureNotFound` set (as `NewValidator` hardcodes),
any error from the directory lookup — of any kind — makes
`VerifyCommitSignature` succeed with the warning flag set, so the commit
signature is never checked and validation cannot fail at DID resolution. -/
theorem c10_lookupErrorPassesWithWarning (cfg : ValidatorCfg) (env : VerifyEnv)
    (commit : Commit) (xdid : String) (e : String)
    (hdir : env.hasDirectory = true)
    (hallow : cfg.allowSignatureNotFound = true)
    (hdid : env.parseDID commit.did = .ok xdid)
    (hlook : env.lookupDID xdid = .error e) :
    VerifyCommitSignature cfg env commit = .ok true ∧
    NewValidator.allowSignatureNotFound = true := by
  refine ⟨?_, rfl⟩
  simp [VerifyCommitSignature, hdir, hdid, hlook, hallow]

/-- Witness for C10 at a concrete environment whose lookup fails. -/
theorem c10_lookupErrorPassesWithWarning_witness :
    VerifyCommitSignature NewValidator { trivEnv with hasDirectory := true }
      { did := "did:x", rev := "rev1", data := 7 } = .ok true :=
  (c10_lookupErrorPassesWithWarning NewValidator { trivEnv with hasDirectory := true }
    { did := "did:x", rev := "rev1", data := 7 } "did:x" "identity not found"
    rfl rfl rfl rfl).1

theorem verifyCommitSignature_err_kind (cfg : ValidatorCfg) (env : VerifyEnv)
    (commit : Commit) (e : VErr)
    (h : VerifyCommitSignature cfg env commit = .error e) :
    (∀ dt, e ≠ .revOutOfOrder dt) ∧ e ≠ .revTooFarFuture := by
  unfold VerifyCommitSignature at h
  iterate 8 (all_goals (try split at h))
  all_goals (try (injection h with h))
  all_goals (try subst h)
  all_goals simp_all

theorem checkRecords_err_kind (env : VerifyEnv) (rf : RepoFragment) :
    ∀ (ops : List RepoOpWire) (e : VErr), checkRecords env rf ops = .error e →
      (∀ dt, e ≠ .revOutOfOrder dt) ∧ e ≠ .revTooFarFuture := by
  intro ops
  induction ops with
  | nil =>
    intro e h
    simp [checkRecords] at h
  | cons op rest ih =>
    intro e h
    unfold checkRecords at h
    iterate 8 (all_goals (try split at h))
    all_goals (try (injection h with h))
    all_goals (try subst h)
    all_goals (first
      | (simp_all; done)
      | exact ih _ h)

theorem invertAll_err_kind (env : VerifyEnv) :
    ∀ (ops : List Operation) (t : Nat) (e : VErr), invertAll env t ops = .error e →
      (∀ dt, e ≠ .revOutOfOrder dt) ∧ e ≠ .revTooFarFuture := by
  intro ops
  induction ops with
  | nil =>
    intro t e h
    simp [invertAll] at h
  | cons op rest ih =>
    intro t e h
    unfold invertAll at h
    iterate 4 (all_goals (try split at h))
    all_goals (try (injection h with h))
    all_goals (try subst h)
    all_goals (first
      | (simp_all; done)
      | exact ih _ _ h)

theorem prevDataCheck_err_kind (env : VerifyEnv) (msg : CommitMsg)
    (prevData : Option CID) (rf : RepoFragment) (hw : Bool) (c : CID) (e : VErr)
    (h : prevDataCheck env msg prevData rf hw c = .error e) :
    (∀ dt, e ≠ .revOutOfOrder dt) ∧ e ≠ .revTooFarFuture := by
  unfold prevDataCheck at h
  iterate 8 (all_goals (try split at h))
  all_goals (try (injection h with h))
  all_goals (try subst h)
  all_goals (first
    | (simp_all; done)
    | exact invertAll_err_kind env _ _ _ h
    | exact invertAll_err_kind env _ _ _ (by assumption))

theorem verifyStage2_err_kind (cfg : ValidatorCfg) (env : VerifyEnv) (msg : CommitMsg)
    (prevData : Option CID) (did : String) (rev : TID) (e : VErr)
    (h : verifyStage2 cfg env msg prevData did rev = .error e) :
    (∀ dt, e ≠ .revOutOfOrder dt) ∧ e ≠ .revTooFarFuture := by
  unfold verifyStage2 at h
  iterate 10 (all_goals (try split at h))
  all_goals (try (injection h with h))
  all_goals (try subst h)
  all_goals (first
    | (simp_all; done)
    | exact verifyCommitSignature_err_kind cfg env _ _ h
    | exact verifyCommitSignature_err_kind cfg env _ _ (by assumption)
    | exact checkRecords_err_kind env _ _ _ h
    | exact checkRecords_err_kind env _ _ _ (by assumption)
    | exact prevDataCheck_err_kind env _ _ _ _ _ _ h
    | exact prevDataCheck_err_kind env _ _ _ _ _ _ (by assumption))

/-- C4: with a known `prevRev`, an incoming rev whose time is strictly before
the previous rev time makes `VerifyCommitMessage` fail with
`revOutOfOrderError` carrying `dt = prevTime - curTime` (necessarily
non-zero); when the incoming rev time is at or after the previous rev time
(equality included), the call can never fail with that error. -/
theorem c4_revOutOfOrder (cfg : ValidatorCfg) (env : VerifyEnv) (msg : CommitMsg)
    (pr : TID) (prevData : Option CID) (did : String) (rev : TID)
    (hdid : env.parseDID msg.repo = .ok did)
    (htid : env.parseTID msg.rev = .ok rev) :
    (rev.time < pr.time →
      VerifyCommitMessage cfg env msg (some pr) prevData =
        .error (.revOutOfOrder (pr.time - rev.time)) ∧ 0 < pr.time - rev.time) ∧
    (pr.time ≤ rev.time →
      ∀ dt, VerifyCommitMessage cfg env msg (some pr) prevData ≠
        .error (.revOutOfOrder dt)) := by
  constructor
  · intro hlt
    refine ⟨?_, by omega⟩
    simp only [VerifyCommitMessage, hdid, htid, checkPrevRev, if_pos hlt]
  · intro hge dt hcontra
    simp only [VerifyCommitMessage, hdid, htid, checkPrevRev,
      if_neg (not_lt.mpr hge)] at hcontra
    split at hcontra
    · exact absurd hcontra (by simp)
    · exact (verifyStage2_err_kind cfg env msg prevData did rev _ hcontra).1 dt rfl

/-- A concrete `#commit` message for witnesses. -/
def trivCommitMsg : CommitMsg :=
  { repo := "did:x", rev := "rev1", seq := 1, time := "t", tooBig := false,
    rebase := false, blocks := [], ops := [], prevData := none }

/-- Witness for C4: previous rev at time 5, incoming rev at time 0. -/
theorem c4_revOutOfOrder_witness :
    VerifyCommitMessage NewValidator trivEnv trivCommitMsg
      (some { time := 5, str := "p" }) none = .error (.revOutOfOrder 5) ∧
    (0 : Int) < 5 := by
  have h := (c4_revOutOfOrder NewValidator trivEnv trivCommitMsg
    { time := 5, str := "p" } none "did:x" { time := 0, str := "rev1" }
    rfl rfl).1 (by decide)
  simpa using h

/-- C5: `VerifyCommitMessage` fails with the configured `ErrRevTooFarFuture`
exactly when the parsed rev time is strictly after `now + maxRevFuture`; a
rev at or before that bound can never fail with this error.  `NewValidator`
wires `maxRevFuture` to `defaultMaxRevFuture`, one hour. -/
theorem c5_revTooFarFuture (cfg : ValidatorCfg) (env : VerifyEnv) (msg : CommitMsg)
    (prevRev : Option TID) (prevData : Option CID) (did : String) (rev : TID)
    (hdid : env.parseDID msg.repo = .ok did)
    (htid : env.parseTID msg.rev = .ok rev)
    (hprev : checkPrevRev rev prevRev = .ok ()) :
    (env.now + cfg.maxRevFuture < rev.time →
      VerifyCommitMessage cfg env msg prevRev prevData = .error .revTooFarFuture) ∧
    (rev.time ≤ env.now + cfg.maxRevFuture →
      VerifyCommitMessage cfg env msg prevRev prevData ≠ .error .revTooFarFuture) ∧
    NewValidator.maxRevFuture = defaultMaxRevFuture ∧
    defaultMaxRevFuture = 3600000000000 := by
  refine ⟨?_, ?_, rfl, rfl⟩
  · intro hlt
    simp only [VerifyCommitMessage, hdid, htid, hprev, if_pos hlt]
  · intro hge hcontra
    simp only [VerifyCommitMessage, hdid, htid, hprev,
      if_neg (not_lt.mpr hge)] at hcontra
    exact (verifyStage2_err_kind cfg env msg prevData did rev _ hcontra).2 rfl

/-- An environment whose TID parse yields a far-future rev time. -/
def futEnv : VerifyEnv :=
  { trivEnv with parseTID := fun _ => .ok { time := 9999999999999, str := "rev1" } }

/-- Witness for C5: a rev about 2.8 hours in the future fails the one-hour
default bound. -/
theorem c5_revTooFarFuture_witness :
    VerifyCommitMessage NewValidator futEnv trivCommitMsg none none =
      .error .revTooFarFuture :=
  (c5_revTooFarFuture NewValidator futEnv trivCommitMsg none none "did:x"
    { time := 9999999999999, str := "rev1" } rfl rfl rfl).1 (by decide)

theorem verifyCommitMessage_eq_stage2 (cfg : ValidatorCfg) (env : VerifyEnv)
    (msg : CommitMsg) (prevRev : Option TID) (prevData : Option CID)
    (did : String) (rev : TID)
    (hdid : env.parseDID msg.repo = .ok did)
    (htid : env.parseTID msg.rev = .ok rev)
    (hprev : checkPrevRev rev prevRev = .ok ())
    (hfut : ¬ env.now + cfg.maxRevFuture < rev.time) :
    VerifyCommitMessage cfg env msg prevRev prevData =
      verifyStage2 cfg env msg prevData did rev := by
  simp only [VerifyCommitMessage, hdid, htid, hprev, if_neg hfut]

theorem verifyStage2_eq_afterChecks (cfg : ValidatorCfg) (env : VerifyEnv)
    (msg : CommitMsg) (prevData : Option CID) (did : String) (rev : TID)
    (commit : Commit) (rf : RepoFragment) (w : Bool)
    (htime : env.parseDatetime msg.time = .ok ())
    (hcar : env.loadRepoFromCAR msg.blocks = .ok (commit, rf))
    (hrev : commit.rev = rev.str)
    (hdid2 : commit.did = did)
    (hsig : VerifyCommitSignature cfg env commit = .ok w)
    (hrec : checkRecords env rf msg.ops = .ok ()) :
    verifyStage2 cfg env msg prevData did rev =
      (if hasLegacyOp msg.ops then .ok (rf, (msg.tooBig || msg.rebase) || w)
       else
        match msg.prevData with
        | none => .ok (rf, (msg.tooBig || msg.rebase) || w)
        | some c =>
          prevDataCheck env msg prevData rf ((msg.tooBig || msg.rebase) || w) c) := by
  simp [verifyStage2, htime, hcar, hrev, hdid2, hsig, hrec]

/-- C2: a commit message that passes all checks up to and including the
per-op record-consistency loop and contains at least one delete or update op
with no prev CID makes `VerifyCommitMessage` return the loaded repo fragment
immediately, skipping the prevData inversion entirely — the conclusion holds
for every `msg.prevData`, including a present one, and constrains none of
the inversion oracles. -/
theorem c2_legacyShortCircuit (cfg : ValidatorCfg) (env : VerifyEnv)
    (msg : CommitMsg) (prevRev : Option TID) (prevData : Option CID)
    (did : String) (rev : TID) (commit : Commit) (rf : RepoFragment) (w : Bool)
    (hdid : env.parseDID msg.repo = .ok did)
    (htid : env.parseTID msg.rev = .ok rev)
    (hprev : checkPrevRev rev prevRev = .ok ())
    (hfut : ¬ env.now + cfg.maxRevFuture < rev.time)
    (htime : env.parseDatetime msg.time = .ok ())
    (hcar : env.loadRepoFromCAR msg.blocks = .ok (commit, rf))
    (hrev : commit.rev = rev.str)
    (hdid2 : commit.did = did)
    (hsig : VerifyCommitSignature cfg env commit = .ok w)
    (hrec : checkRecords env rf msg.ops = .ok ())
    (hleg : ∃ o ∈ msg.ops, (o.action = "delete" ∨ o.action = "update") ∧ o.prev = none) :
    VerifyCommitMessage cfg env msg prevRev prevData =
      .ok (rf, (msg.tooBig || msg.rebase) || w) := by
  have hlegb : hasLegacyOp msg.ops = true := by
    obtain ⟨o, ho, hact, hprevnil⟩ := hleg
    unfold hasLegacyOp
    rw [List.any_eq_true]
    refine ⟨o, ho, ?_⟩
    rcases hact with h | h <;> simp [h, hprevnil]
  rw [verifyCommitMessage_eq_stage2 cfg env msg prevRev prevData did rev hdid htid hprev hfut,
    verifyStage2_eq_afterChecks cfg env msg prevData did rev commit rf w htime hcar hrev
      hdid2 hsig hrec, if_pos hlegb]

/-- A commit message carrying a legacy delete op (no prev) and a present
`prevData` field, for the C2 witness. -/
def legacyMsg : CommitMsg :=
  { trivCommitMsg with
    ops := [{ action := "delete", path := "a/b", cid := none, prev := none }]
    prevData := some 42 }

/-- Witness for C2 at a concrete legacy message. -/
theorem c2_legacyShortCircuit_witness :
    VerifyCommitMessage NewValidator trivEnv legacyMsg none none =
      .ok ({ mst := 0 }, false) := by
  have h := c2_legacyShortCircuit NewValidator trivEnv legacyMsg none none
    "did:x" { time := 0, str := "rev1" } { did := "did:x", rev := "rev1", data := 7 }
    { mst := 0 } false rfl rfl rfl (by decide) rfl rfl rfl rfl rfl rfl
    ⟨{ action := "delete", path := "a/b", cid := none, prev := none },
      by simp [legacyMsg, trivCommitMsg], Or.inl rfl, rfl⟩
  simpa using h

/-- C1: when the message reaches the prevData block (all earlier checks pass,
no legacy op short-circuits, and `msg.PrevData` is present): a disagreement
between the accumulated-state `prevData` argument and `msg.PrevData` only
sets the warning flag and never by itself fails the call — the call still
succeeds whenever the inverted tree root equals `msg.PrevData` — while an
inverted tree root different from `msg.PrevData` fails the call with the
`prevDataMismatch` error (Go: "inverted tree root did not match prevData"). -/
theorem c1_prevDataBehavior (cfg : ValidatorCfg) (env : VerifyEnv)
    (msg : CommitMsg) (prevRev : Option TID) (prevData : Option CID)
    (did : String) (rev : TID) (commit : Commit) (rf : RepoFragment) (w : Bool)
    (c : CID) (ops ops2 : List Operation) (t : Nat) (computed : CID)
    (hdid : env.parseDID msg.repo = .ok did)
    (htid : env.parseTID msg.rev = .ok rev)
    (hprev : checkPrevRev rev prevRev = .ok ())
    (hfut : ¬ env.now + cfg.maxRevFuture < rev.time)
    (htime : env.parseDatetime msg.time = .ok ())
    (hcar : env.loadRepoFromCAR msg.blocks = .ok (commit, rf))
    (hrev : commit.rev = rev.str)
    (hdid2 : commit.did = did)
    (hsig : VerifyCommitSignature cfg env commit = .ok w)
    (hrec : checkRecords env rf msg.ops = .ok ())
    (hleg : hasLegacyOp msg.ops = false)
    (hpd : msg.prevData = some c)
    (hops : ParseCommitOps msg.ops = .ok ops)
    (hnorm : env.normalizeOps ops = .ok ops2)
    (hinv : invertAll env rf.mst ops2 = .ok t)
    (hroot : env.rootCID t = .ok computed) :
    (computed = c →
      VerifyCommitMessage cfg env msg prevRev prevData =
        .ok (rf, prevDataWarn prevData c ((msg.tooBig || msg.rebase) || w))) ∧
    (computed ≠ c →
      VerifyCommitMessage cfg env msg prevRev prevData = .error .prevDataMismatch) ∧
    (∀ pd hw, prevDataWarn (some pd) c hw = (hw || (pd != c))) := by
  have hbase : VerifyCommitMessage cfg env msg prevRev prevData =
      prevDataCheck env msg prevData rf ((msg.tooBig || msg.rebase) || w) c := by
    rw [verifyCommitMessage_eq_stage2 cfg env msg prevRev prevData did rev hdid htid hprev hfut,
      verifyStage2_eq_afterChecks cfg env msg prevData did rev commit rf w htime hcar hrev
        hdid2 hsig hrec]
    rw [if_neg (by simp [hleg]), hpd]
  refine ⟨?_, ?_, ?_⟩
  · intro hc
    rw [hbase]
    simp only [prevDataCheck, hops, hnorm, hinv, hroot]
    rw [if_neg (by simp [hc])]
  · intro hc
    rw [hbase]
    simp only [prevDataCheck, hops, hnorm, hinv, hroot]
    rw [if_pos hc]
  · intro pd hw
    unfold prevDataWarn
    by_cases h : pd = c <;> simp [h]

/-- A commit message whose `prevData` field matches the inverted root
computed by `trivEnv`, for the C1 witness. -/
def prevDataMsg : CommitMsg :=
  { trivCommitMsg with prevData := some 9 }

/-- Witness for C1: accumulated state says CID 3, the message says CID 9,
the inverted root is 9 — the call succeeds with the warning flag set. -/
theorem c1_prevDataBehavior_witness :
    VerifyCommitMessage NewValidator trivEnv prevDataMsg none (some 3) =
      .ok ({ mst := 0 }, true) := by
  have h := (c1_prevDataBehavior NewValidator trivEnv prevDataMsg none (some 3)
    "did:x" { time := 0, str := "rev1" } { did := "did:x", rev := "rev1", data := 7 }
    { mst := 0 } false 9 [] [] 0 9
    rfl rfl rfl (by decide) rfl rfl rfl rfl rfl rfl rfl rfl rfl rfl rfl rfl).1 rfl
  simpa [prevDataWarn] using h

theorem fillBytesN_length (n x : Nat) : (fillBytesN n x).length = n := by
  simp [fillBytesN]

theorem fillBytesN_succ (n x : Nat) :
    fillBytesN (n + 1) x = (x / 256 ^ n % 256) :: fillBytesN n x := by
  unfold fillBytesN
  rw [List.range_succ_eq_map, List.map_cons, List.map_map]
  congr 1
  apply List.map_congr_left
  intro i _
  simp only [Function.comp]
  have h : n - (i + 1) = n - 1 - i := by omega
  rw [show n + 1 - 1 - (i + 1) = n - (i + 1) from rfl, h]

theorem foldl_mulAdd (l : List Nat) (a : Nat) :
    l.foldl (fun acc b => acc * 256 + b) a =
      a * 256 ^ l.length + l.foldl (fun acc b => acc * 256 + b) 0 := by
  induction l generalizing a with
  | nil => simp
  | cons b l ih =>
    simp only [List.foldl_cons, List.length_cons]
    rw [ih (a * 256 + b), ih (0 * 256 + b)]
    ring

theorem setBytes_fillBytesN (n x : Nat) : setBytes (fillBytesN n x) = x % 256 ^ n := by
  induction n with
  | zero => simp [fillBytesN, setBytes, Nat.mod_one]
  | succ n ih =>
    rw [fillBytesN_succ]
    unfold setBytes
    rw [List.foldl_cons, foldl_mulAdd (fillBytesN n x) (0 * 256 + x / 256 ^ n % 256),
      fillBytesN_length]
    have ih2 : (fillBytesN n x).foldl (fun acc b => acc * 256 + b) 0 = x % 256 ^ n := ih
    rw [ih2]
    have h1 := Nat.div_add_mod (x % (256 ^ n * 256)) (256 ^ n)
    rw [Nat.mod_mul_right_div_self, Nat.mod_mod_of_dvd x ⟨256, rfl⟩] at h1
    rw [pow_succ, ← h1]
    ring

theorem setBytes_fillBytes32 (x : Nat) (hx : x < 2 ^ 256) :
    setBytes (fillBytes32 x) = x := by
  unfold fillBytes32
  rw [setBytes_fillBytesN]
  have h : (256 : Nat) ^ 32 = 2 ^ 256 := by norm_num
  rw [h]
  exact Nat.mod_eq_of_lt hx

/-- C3: for every content and every 64-byte signature, `HashAndVerify`
returns `ErrInvalidSignature` whenever the decoded `s` lies in the upper half
of the P-256 order (`s > n/2`), whatever the ECDSA verification outcome; and
it returns success only when ECDSA verification of the SHA-256 digest
succeeds and `s` is low-S. -/
theorem c3_hashAndVerify_lowS (env : CryptoEnv) (content sig : List Nat)
    (hlen : sig.length = 64) :
    (p256Order / 2 < setBytes (sig.drop 32) →
      HashAndVerify env content sig = .error ErrInvalidSignature) ∧
    (HashAndVerify env content sig = .ok () →
      env.ecdsaVerify (env.sha256 content) (setBytes (sig.take 32))
        (setBytes (sig.drop 32)) = true ∧
      setBytes (sig.drop 32) ≤ p256Order / 2) := by
  constructor
  · intro hhi
    unfold HashAndVerify
    rw [if_neg (by simp [hlen])]
    have hlow : sigSIsLowS_P256 (setBytes (sig.drop 32)) = false := by
      simp only [sigSIsLowS_P256, decide_eq_false_iff_not]
      omega
    by_cases hv : env.ecdsaVerify (env.sha256 content) (setBytes (sig.take 32))
        (setBytes (sig.drop 32)) = false
    · rw [if_pos hv]
    · rw [if_neg hv, if_pos hlow]
  · intro hok
    unfold HashAndVerify at hok
    rw [if_neg (by simp [hlen])] at hok
    split at hok
    · exact absurd hok (by simp)
    · split at hok
      · exact absurd hok (by simp)
      · rename_i hv hlow
        refine ⟨by simpa using hv, ?_⟩
        have h2 : sigSIsLowS_P256 (setBytes (sig.drop 32)) = true := by
          simpa using hlow
        simpa [sigSIsLowS_P256] using h2

/-- A concrete crypto environment whose ECDSA primitive accepts everything
and signs with `(r, s) = (1, 1)`; it exhibits that the low-S rejection is
independent of the ECDSA verification outcome. -/
def cEnv : CryptoEnv :=
  { sha256 := fun _ => []
    ecdsaVerify := fun _ _ _ => true
    ecdsaSign := fun _ => .ok (1, 1) }

/-- Witness for C3: an all-ones signature decodes to a high `s` and is
rejected even though the (trivial) ECDSA verification accepts it. -/
theorem c3_hashAndVerify_lowS_witness :
    HashAndVerify cEnv [] (List.replicate 64 255) = .error ErrInvalidSignature :=
  (c3_hashAndVerify_lowS cEnv [] (List.replicate 64 255) (by simp)).1 (by decide)

/-- C9: sign/verify round trip.  Over any ECDSA primitive that produced a
valid raw signature `(r, s)` (with `r` fitting 32 bytes and `0 < s < n`) and
that satisfies the ECDSA malleability symmetry (`(r, n - s)` verifies exactly
when `(r, s)` does — a theorem of ECDSA), the signature emitted by
`HashAndSign` — low-S normalized and serialized — is accepted by
`HashAndVerify` on the same content. -/
theorem c9_signVerifyRoundTrip (env : CryptoEnv) (content : List Nat) (r s : Nat)
    (hsign : env.ecdsaSign (env.sha256 content) = .ok (r, s))
    (hr : r < 2 ^ 256) (hs0 : 0 < s) (hsn : s < p256Order)
    (hver : env.ecdsaVerify (env.sha256 content) r s = true)
    (hmall : ∀ h rr ss, 0 < ss → ss < p256Order →
      env.ecdsaVerify h rr (p256Order - ss) = env.ecdsaVerify h rr ss) :
    HashAndSign env content = .ok (fillBytes32 r ++ fillBytes32 (sigSToLowS_P256 s)) ∧
    HashAndVerify env content (fillBytes32 r ++ fillBytes32 (sigSToLowS_P256 s)) = .ok () := by
  have hn2 : p256Order < 2 ^ 256 := by decide
  have hodd : p256Order % 2 = 1 := by decide
  have hs2lt : sigSToLowS_P256 s < p256Order := by
    unfold sigSToLowS_P256
    split <;> omega
  have hs2le : sigSToLowS_P256 s ≤ p256Order / 2 := by
    unfold sigSToLowS_P256
    split <;> omega
  have hset2 : setBytes (fillBytes32 (sigSToLowS_P256 s)) = sigSToLowS_P256 s :=
    setBytes_fillBytes32 _ (by omega)
  have hsetr : setBytes (fillBytes32 r) = r := setBytes_fillBytes32 _ hr
  have hver2 : env.ecdsaVerify (env.sha256 content) r (sigSToLowS_P256 s) = true := by
    unfold sigSToLowS_P256
    split
    · rw [hmall _ _ _ hs0 hsn]
      exact hver
    · exact hver
  have hlen1 : (fillBytes32 r).length = 32 := fillBytesN_length 32 r
  constructor
  · unfold HashAndSign
    rw [hsign]
  · unfold HashAndVerify
    rw [if_neg (by simp [fillBytes32, fillBytesN_length])]
    rw [List.take_left' hlen1, List.drop_left' hlen1, hsetr, hset2]
    rw [if_neg (by simp [hver2]), if_neg (by simp [sigSIsLowS_P256, hs2le])]

/-- Witness for C9 at the concrete environment: the signature over empty
content round-trips. -/
theorem c9_signVerifyRoundTrip_witness :
    HashAndSign cEnv [] = .ok (fillBytes32 1 ++ fillBytes32 (sigSToLowS_P256 1)) ∧
    HashAndVerify cEnv [] (fillBytes32 1 ++ fillBytes32 (sigSToLowS_P256 1)) = .ok () :=
  c9_signVerifyRoundTrip cEnv [] 1 1 rfl (by decide) (by decide) (by decide) rfl
    (fun _ _ _ _ _ => rfl)
